import Mathlib

/-! Shallow embedding of the midi-agent repository: the sparse timing resolver
(`DslResponse.get_midi_events` in src/midiagent/ai.py), the realtime playback
loop (`play_midi` in src/midiagent/midi_playback.py), and the pieces the loop
calls whose code is not present under src (`MidiEvent.timestamp`,
`MidiEvent.payload`, and the event descriptor type from `midiagent/types.py`),
which are modelled from the spec and marked as such.

Embedding conventions: Python integers are `Int` (Python truthiness of an
optional integer field, as in `if item.measure and ...`, is embedded as the
field being `some` of a nonzero value); Python float arithmetic on musical
offsets is embedded as exact rational arithmetic over `Rat` (every constant
involved is an exact rational, so no behaviour of the formula is lost); the
wall clock read by `time.time()` inside the loop of `play_midi` is embedded as
a trace `clock : Nat → Rat` giving the elapsed time observed at the n-th loop
iteration, and the `while idx < len(events)` loop is run for an explicit
number of iterations (`fuel`), one clock sample per iteration, the iteration
being the identity once the cursor has reached the end of the list (in the
source the loop has exited at that point and the function returns). -/

/-- Modelled from the spec: `midiagent/types.py` is imported by
src/midiagent/ai.py but is absent from src. Section 4.3 describes note names
as a pitch class plus an octave under semitone arithmetic with A4 = 69; these
are the twelve pitch classes of the chromatic octave. -/
inductive PitchClass : Type
  | c
  | cSharp
  | d
  | dSharp
  | e
  | f
  | fSharp
  | g
  | gSharp
  | a
  | aSharp
  | b
deriving DecidableEq

/-- Modelled from the spec: the semantic event descriptor `MidiEventType` of
`midiagent/types.py` (absent from src): a note name (pitch class + octave) or
a named controller (sustain = CC 64, mod wheel = CC 1), per sections 3 and
4.3 of the spec. -/
inductive MidiEventType : Type
  | note (pc : PitchClass) (octave : Int)
  | sustain
  | modWheel
deriving DecidableEq

/-- `SparseMidiEvent` (src/midiagent/ai.py, lines 30-42): a MIDI event with
optional timing fields. The pydantic range constraints declared on the fields
(measure > 0, beat and the two subdivisions in [1,8], value in [0,100]) are
embedded separately as `sparseInRange`. -/
structure SparseMidiEvent : Type where
  measure : Option Int
  beat : Option Int
  beat_div4 : Option Int
  beat_div16 : Option Int
  event : MidiEventType
  value : Int
deriving DecidableEq

/-- `MidiEvent` (src/midiagent/ai.py, lines 45-53): clone of `SparseMidiEvent`
with required fields. -/
structure MidiEvent : Type where
  measure : Int
  beat : Int
  beat_div4 : Int
  beat_div16 : Int
  event : MidiEventType
  value : Int
deriving DecidableEq

/-- The four running timing values of `DslResponse.get_midi_events`
(src/midiagent/ai.py, lines 77-80), each initialized to 1. -/
structure RunningState : Type where
  measure : Int
  beat : Int
  beat_div4 : Int
  beat_div16 : Int
deriving DecidableEq

/-- Lines 83-87 of src/midiagent/ai.py: `if item.measure and item.measure !=
measure` adopts a present, truthy (nonzero) measure that differs from the
running one and resets the three lower ranks to 1. -/
def updMeasure (s : RunningState) : Option Int → RunningState
  | some m => if m ≠ 0 ∧ m ≠ s.measure then ⟨m, 1, 1, 1⟩ else s
  | none => s

/-- Lines 88-91 of src/midiagent/ai.py: a present, truthy beat that differs
from the running one is adopted and resets the two lower ranks to 1. -/
def updBeat (s : RunningState) : Option Int → RunningState
  | some b => if b ≠ 0 ∧ b ≠ s.beat then ⟨s.measure, b, 1, 1⟩ else s
  | none => s

/-- Lines 92-94 of src/midiagent/ai.py: a present, truthy beat_div4 that
differs from the running one is adopted and resets beat_div16 to 1. -/
def updDiv4 (s : RunningState) : Option Int → RunningState
  | some q => if q ≠ 0 ∧ q ≠ s.beat_div4 then ⟨s.measure, s.beat, q, 1⟩ else s
  | none => s

/-- Lines 95-96 of src/midiagent/ai.py: a present, truthy beat_div16 that
differs from the running one is adopted; nothing further is reset. -/
def updDiv16 (s : RunningState) : Option Int → RunningState
  | some x => if x ≠ 0 ∧ x ≠ s.beat_div16 then ⟨s.measure, s.beat, s.beat_div4, x⟩ else s
  | none => s

/-- The body of the `for item in self.dsl` loop of
`DslResponse.get_midi_events` (src/midiagent/ai.py, lines 83-96): the four
rank updates applied in order, highest rank first, each later check reading
the running values already updated by the earlier ones. -/
def applyTiming (s : RunningState) (item : SparseMidiEvent) : RunningState :=
  updDiv16 (updDiv4 (updBeat (updMeasure s item.measure) item.beat) item.beat_div4) item.beat_div16

/-- The loop of `DslResponse.get_midi_events` (src/midiagent/ai.py, lines
82-98): each sparse record updates the running state and contributes one
fully resolved `MidiEvent` built from the state after the update, with
`event` and `value` passed through unchanged. -/
def getMidiEventsAux : RunningState → List SparseMidiEvent → List MidiEvent
  | _, [] => []
  | s, item :: rest =>
    let t := applyTiming s item
    ⟨t.measure, t.beat, t.beat_div4, t.beat_div16, item.event, item.value⟩ :: getMidiEventsAux t rest

/-- `DslResponse.get_midi_events` (src/midiagent/ai.py, lines 74-100): running
state starts at (1, 1, 1, 1). -/
def get_midi_events (dsl : List SparseMidiEvent) : List MidiEvent :=
  getMidiEventsAux ⟨1, 1, 1, 1⟩ dsl

/-- The pydantic range constraints declared on the fields of
`SparseMidiEvent` (src/midiagent/ai.py, lines 37-42): measure > 0, beat and
both subdivisions in (0, 9), value in (-1, 101). -/
def sparseInRange (r : SparseMidiEvent) : Bool :=
  r.measure.all (fun m => decide (1 ≤ m))
    && r.beat.all (fun v => decide (1 ≤ v) && decide (v ≤ 8))
    && r.beat_div4.all (fun v => decide (1 ≤ v) && decide (v ≤ 8))
    && r.beat_div16.all (fun v => decide (1 ≤ v) && decide (v ≤ 8))
    && (decide (0 ≤ r.value) && decide (r.value ≤ 100))

/-- Every running timing value lies within its declared range: measure at
least 1, the other three ranks in [1, 8]. -/
def stateOk (s : RunningState) : Prop :=
  1 ≤ s.measure ∧ (1 ≤ s.beat ∧ s.beat ≤ 8)
    ∧ (1 ≤ s.beat_div4 ∧ s.beat_div4 ≤ 8) ∧ (1 ≤ s.beat_div16 ∧ s.beat_div16 ≤ 8)

/-- Every timing field of a resolved `MidiEvent` lies within its declared
range: measure at least 1, the other three ranks in [1, 8]. -/
def eventOk (e : MidiEvent) : Prop :=
  1 ≤ e.measure ∧ (1 ≤ e.beat ∧ e.beat ≤ 8)
    ∧ (1 ≤ e.beat_div4 ∧ e.beat_div4 ≤ 8) ∧ (1 ≤ e.beat_div16 ∧ e.beat_div16 ≤ 8)

/-- Modelled from the spec: `MidiEvent.timestamp` is called by `play_midi`
(src/midiagent/midi_playback.py, line 15) but its definition is not under
src. Section 4.2 of the spec gives the formula: one beat lasts 60/bpm
seconds, a measure lasts numerator * 60/bpm seconds, and the offset is
(measure-1)*seconds_per_measure + (beat-1)*60/bpm + (quarter_sub-1)*(60/bpm)/4
+ (sixteenth_sub-1)*(60/bpm)/16, independent of the signature denominator. -/
def timestamp (e : MidiEvent) (bpm : Int) (time_signature : Int × Int) : Rat :=
  let secondsPerBeat : Rat := 60 / (bpm : Rat)
  let secondsPerMeasure : Rat := (time_signature.1 : Rat) * secondsPerBeat
  ((e.measure : Rat) - 1) * secondsPerMeasure
    + ((e.beat : Rat) - 1) * secondsPerBeat
    + ((e.beat_div4 : Rat) - 1) * (secondsPerBeat / 4)
    + ((e.beat_div16 : Rat) - 1) * (secondsPerBeat / 16)

/-- Modelled from the spec: index of a pitch class within the chromatic
octave under the semitone arithmetic of section 4.3 (c = 0, ..., a = 9,
b = 11), so that with `noteNumber` below A4 maps to 69. -/
def pcIndex : PitchClass → Int
  | .c => 0
  | .cSharp => 1
  | .d => 2
  | .dSharp => 3
  | .e => 4
  | .f => 5
  | .fSharp => 6
  | .g => 7
  | .gSharp => 8
  | .a => 9
  | .aSharp => 10
  | .b => 11

/-- Modelled from the spec: the MIDI note number of a pitch class and octave
with the A4 = 69 reference of section 4.3 (so noteNumber a 4 = 12 * 5 + 9). -/
def noteNumber (pc : PitchClass) (octave : Int) : Int :=
  12 * (octave + 1) + pcIndex pc

/-- Modelled from the spec: the data2 scaling of section 4.3,
round(value * 127 / 100) clamped to [0, 127]. -/
def scaleValue (v : Int) : Int :=
  max 0 (min 127 (round ((v : Rat) * 127 / 100)))

/-- Modelled from the spec: `MidiEvent.payload` is called by `play_midi`
(src/midiagent/midi_playback.py, line 20) but its definition is not under
src. Section 4.3: a note-on message is (0x90 | channel, note number, scaled
value); a controller message is (0xB0 | channel, controller id, scaled
value) with sustain = 64 and mod wheel = 1; a note number outside [0, 127]
is an encoding failure, embedded as `none`. The channel is a fixed session
constant passed as a parameter. -/
def payload (channel : Nat) (e : MidiEvent) : Option (Nat × Nat × Nat) :=
  match e.event with
  | .note pc octave =>
    if 0 ≤ noteNumber pc octave ∧ noteNumber pc octave ≤ 127 then
      some (0x90 ||| channel, (noteNumber pc octave).toNat, (scaleValue e.value).toNat)
    else
      none
  | .sustain => some (0xB0 ||| channel, 64, (scaleValue e.value).toNat)
  | .modWheel => some (0xB0 ||| channel, 1, (scaleValue e.value).toNat)

/-- Decode a MIDI data1 byte back to its pitch class (inverse of the
semitone arithmetic of `noteNumber`). -/
def pcOfNat (n : Nat) : PitchClass :=
  if n % 12 = 0 then .c
  else if n % 12 = 1 then .cSharp
  else if n % 12 = 2 then .d
  else if n % 12 = 3 then .dSharp
  else if n % 12 = 4 then .e
  else if n % 12 = 5 then .f
  else if n % 12 = 6 then .fSharp
  else if n % 12 = 7 then .g
  else if n % 12 = 8 then .gSharp
  else if n % 12 = 9 then .a
  else if n % 12 = 10 then .aSharp
  else .b

/-- Decode a MIDI data1 byte back to the pitch class and octave it encodes
under the A4 = 69 semitone arithmetic. -/
def decodeNote (data1 : Nat) : PitchClass × Int :=
  (pcOfNat data1, (data1 : Int) / 12 - 1)

/-- The mutable state of the `play_midi` loop (src/midiagent/midi_playback.py,
lines 8-9): the cursor `idx`, the in-flight `batch`, and, for observability,
the ordered list of batches flushed to the sink so far (each assignment
`midi.events = [event.payload() for event in batch]` is one sink delivery;
`flushed` records the delivered batches). -/
structure DispState (α : Type) : Type where
  idx : Nat
  batch : List α
  flushed : List (List α)
deriving DecidableEq

/-- One iteration of the `while idx < len(events)` loop of `play_midi`
(src/midiagent/midi_playback.py, lines 12-21), at a tick whose elapsed-time
reading is `elapsed`: if the cursor event is due (`event_time <= elapsed`)
it is appended to the batch and the cursor advances; otherwise, if the batch
is non-empty (`elif batch:`), the batch is flushed to the sink and cleared;
otherwise nothing happens. Once the cursor has reached the end of the list
the loop has exited, embedded as the identity. -/
def playStep {α : Type} (off : α → Rat) (events : List α) (elapsed : Rat)
    (s : DispState α) : DispState α :=
  if h : s.idx < events.length then
    if off events[s.idx] ≤ elapsed then
      ⟨s.idx + 1, s.batch ++ [events[s.idx]], s.flushed⟩
    else if s.batch.isEmpty then
      s
    else
      ⟨s.idx, [], s.flushed ++ [s.batch]⟩
  else
    s

/-- The `play_midi` loop run for `fuel` iterations starting from cursor 0,
empty batch and no deliveries; iteration n reads elapsed time `clock n`. -/
def playRun {α : Type} (off : α → Rat) (events : List α) (clock : Nat → Rat) :
    Nat → DispState α
  | 0 => ⟨0, [], []⟩
  | n + 1 => playStep off events (clock n) (playRun off events clock n)

/-- `play_midi` (src/midiagent/midi_playback.py, lines 7-21): the dispatch
loop over `MidiEvent`s whose offsets come from `timestamp` (which is
modelled from the spec, being absent from src). -/
def play_midi (bpm : Int) (time_signature : Int × Int) (events : List MidiEvent)
    (clock : Nat → Rat) (fuel : Nat) : DispState MidiEvent :=
  playRun (fun e => timestamp e bpm time_signature) events clock fuel

/-- A running state used as a concrete input: measure 2, beat 3, beat_div4 2,
beat_div16 1. -/
def demoState : RunningState := ⟨2, 3, 2, 1⟩

/-- A sparse record restating the running beat 3 and nothing else. -/
def demoItem : SparseMidiEvent := ⟨none, some 3, none, none, .sustain, 0⟩

/-- A sparse record with all timing fields in range. -/
def demoSparse : SparseMidiEvent := ⟨some 2, some 3, none, none, .sustain, 5⟩

/-- Four events whose offsets under bpm 300 and 4/4 time are 0, 0, 1/20 and
1/5 of a second (the sequence 0.0, 0.0, 0.05, 0.2 of the spec): at 300 bpm a
beat lasts 1/5 s, a beat_div4 step 1/20 s. -/
def demoEvents : List MidiEvent :=
  [⟨1, 1, 1, 1, .sustain, 0⟩, ⟨1, 1, 1, 1, .sustain, 1⟩,
    ⟨1, 1, 2, 1, .sustain, 2⟩, ⟨1, 2, 1, 1, .sustain, 3⟩]

/-- An elapsed-time trace realizing the poll instants 0.0, 0.06 and 0.25 of
the spec scenario: the first three loop iterations read 0, the next two read
3/50, and every later iteration reads 1/4. -/
def demoClock : Nat → Rat :=
  fun t => if t < 3 then 0 else if t < 5 then 3 / 50 else 1 / 4

/-- The constant-zero elapsed-time trace. -/
def zeroClock : Nat → Rat := fun _ => 0

theorem optionAll_some {p : Int → Bool} {o : Option Int} (h : o.all p = true) :
    ∀ v, o = some v → p v = true := by
  intro v hv
  rw [hv] at h
  simpa [Option.all] using h

theorem updMeasure_ok {s : RunningState} {o : Option Int}
    (hs : stateOk s) (ho : ∀ v, o = some v → 1 ≤ v) : stateOk (updMeasure s o) := by
  cases o with
  | none => simpa [updMeasure] using hs
  | some m =>
    have hm := ho m rfl
    simp only [updMeasure]
    split
    · simp only [stateOk] at hs ⊢
      omega
    · exact hs

theorem updBeat_ok {s : RunningState} {o : Option Int}
    (hs : stateOk s) (ho : ∀ v, o = some v → 1 ≤ v ∧ v ≤ 8) : stateOk (updBeat s o) := by
  cases o with
  | none => simpa [updBeat] using hs
  | some v =>
    have hv := ho v rfl
    simp only [updBeat]
    split
    · simp only [stateOk] at hs ⊢
      omega
    · exact hs

theorem updDiv4_ok {s : RunningState} {o : Option Int}
    (hs : stateOk s) (ho : ∀ v, o = some v → 1 ≤ v ∧ v ≤ 8) : stateOk (updDiv4 s o) := by
  cases o with
  | none => simpa [updDiv4] using hs
  | some v =>
    have hv := ho v rfl
    simp only [updDiv4]
    split
    · simp only [stateOk] at hs ⊢
      omega
    · exact hs

theorem updDiv16_ok {s : RunningState} {o : Option Int}
    (hs : stateOk s) (ho : ∀ v, o = some v → 1 ≤ v ∧ v ≤ 8) : stateOk (updDiv16 s o) := by
  cases o with
  | none => simpa [updDiv16] using hs
  | some v =>
    have hv := ho v rfl
    simp only [updDiv16]
    split
    · simp only [stateOk] at hs ⊢
      omega
    · exact hs

theorem applyTiming_ok {s : RunningState} {r : SparseMidiEvent}
    (hs : stateOk s) (hr : sparseInRange r = true) : stateOk (applyTiming s r) := by
  simp only [sparseInRange, Bool.and_eq_true] at hr
  obtain ⟨⟨⟨⟨h1, h2⟩, h3⟩, h4⟩, _⟩ := hr
  refine updDiv16_ok (updDiv4_ok (updBeat_ok (updMeasure_ok hs ?_) ?_) ?_) ?_
  · intro v hv
    have := optionAll_some h1 v hv
    simpa using this
  · intro v hv
    have := optionAll_some h2 v hv
    simp only [Bool.and_eq_true, decide_eq_true_eq] at this
    exact this
  · intro v hv
    have := optionAll_some h3 v hv
    simp only [Bool.and_eq_true, decide_eq_true_eq] at this
    exact this
  · intro v hv
    have := optionAll_some h4 v hv
    simp only [Bool.and_eq_true, decide_eq_true_eq] at this
    exact this

theorem getMidiEventsAux_ok : ∀ (dsl : List SparseMidiEvent) (s : RunningState),
    stateOk s → (∀ r ∈ dsl, sparseInRange r = true) →
    ∀ e ∈ getMidiEventsAux s dsl, eventOk e := by
  intro dsl
  induction dsl with
  | nil =>
    intro s _ _ e he
    simp [getMidiEventsAux] at he
  | cons r rest ih =>
    intro s hs hall e he
    have hr : sparseInRange r = true := hall r (List.mem_cons_self r rest)
    have hs2 : stateOk (applyTiming s r) := applyTiming_ok hs hr
    simp only [getMidiEventsAux, List.mem_cons] at he
    rcases he with he | he
    · subst he
      simpa [eventOk, stateOk] using hs2
    · exact ih (applyTiming s r) hs2 (fun x hx => hall x (List.mem_cons_of_mem r hx)) e he

theorem getMidiEventsAux_length : ∀ (dsl : List SparseMidiEvent) (s : RunningState),
    (getMidiEventsAux s dsl).length = dsl.length := by
  intro dsl
  induction dsl with
  | nil => intro s; rfl
  | cons r rest ih =>
    intro s
    simp [getMidiEventsAux, ih]

theorem updMeasure_carry {s : RunningState} {o : Option Int}
    (h : o = none ∨ o = some s.measure) : updMeasure s o = s := by
  rcases h with h | h <;> subst h <;> simp [updMeasure]

theorem updBeat_carry {s : RunningState} {o : Option Int}
    (h : o = none ∨ o = some s.beat) : updBeat s o = s := by
  rcases h with h | h <;> subst h <;> simp [updBeat]

theorem updDiv4_carry {s : RunningState} {o : Option Int}
    (h : o = none ∨ o = some s.beat_div4) : updDiv4 s o = s := by
  rcases h with h | h <;> subst h <;> simp [updDiv4]

theorem updDiv16_carry {s : RunningState} {o : Option Int}
    (h : o = none ∨ o = some s.beat_div16) : updDiv16 s o = s := by
  rcases h with h | h <;> subst h <;> simp [updDiv16]

/-- Claim C3: starting from the initial running state (1,1,1,1), the two
sparse records [{measure: 2}, {beat: 3}] resolve to (2,1,1,1) and then
(2,3,1,1): the beat change resets only the ranks below beat, and the
measure carried from the first record is left unchanged. -/
theorem get_midi_events_reset_rule :
    get_midi_events
        [⟨some 2, none, none, none, .sustain, 0⟩, ⟨none, some 3, none, none, .sustain, 0⟩]
      = [⟨2, 1, 1, 1, .sustain, 0⟩, ⟨2, 3, 1, 1, .sustain, 0⟩] := by
  decide

/-- Claim C4: for every running state, a sparse record each of whose present
timing fields is equal to the corresponding current running value is a
complete no-op: no rank is adopted and no lower rank is reset, so
subdivisions already advanced by earlier records are carried forward. -/
theorem applyTiming_noop_rule (s : RunningState) (item : SparseMidiEvent)
    (hm : item.measure = none ∨ item.measure = some s.measure)
    (hb : item.beat = none ∨ item.beat = some s.beat)
    (hq : item.beat_div4 = none ∨ item.beat_div4 = some s.beat_div4)
    (hx : item.beat_div16 = none ∨ item.beat_div16 = some s.beat_div16) :
    applyTiming s item = s := by
  unfold applyTiming
  rw [updMeasure_carry hm, updBeat_carry hb, updDiv4_carry hq, updDiv16_carry hx]

/-- Witness for C4: from running state (2,3,2,1), the record {beat: 3}
(beat restated, unchanged) resolves with beat_div4 = 2 and beat_div16 = 1
carried forward, not reset to 1. -/
theorem applyTiming_noop_rule_witness :
    (demoItem.measure = none ∨ demoItem.measure = some demoState.measure)
    ∧ (demoItem.beat = none ∨ demoItem.beat = some demoState.beat)
    ∧ (demoItem.beat_div4 = none ∨ demoItem.beat_div4 = some demoState.beat_div4)
    ∧ (demoItem.beat_div16 = none ∨ demoItem.beat_div16 = some demoState.beat_div16)
    ∧ applyTiming demoState demoItem = demoState :=
  ⟨Or.inl rfl, Or.inr rfl, Or.inl rfl, Or.inl rfl,
    applyTiming_noop_rule demoState demoItem (Or.inl rfl) (Or.inr rfl) (Or.inl rfl) (Or.inl rfl)⟩

/-- Claim C5: for every sequence of sparse records whose present fields
satisfy their declared ranges, every timing field of every resolved event
produced by `get_midi_events` lies within its declared range (measure at
least 1, beat and both subdivisions in [1,8]). -/
theorem get_midi_events_in_range (dsl : List SparseMidiEvent)
    (h : ∀ r ∈ dsl, sparseInRange r = true) :
    ∀ e ∈ get_midi_events dsl,
      1 ≤ e.measure ∧ (1 ≤ e.beat ∧ e.beat ≤ 8)
        ∧ (1 ≤ e.beat_div4 ∧ e.beat_div4 ≤ 8) ∧ (1 ≤ e.beat_div16 ∧ e.beat_div16 ≤ 8) := by
  intro e he
  have := getMidiEventsAux_ok dsl ⟨1, 1, 1, 1⟩ (by simp [stateOk]) h e he
  simpa [eventOk] using this

/-- Witness for C5: the singleton sequence [{measure: 2, beat: 3, value: 5}]
is in range and every field of its resolved event is in range. -/
theorem get_midi_events_in_range_witness :
    (∀ r ∈ [demoSparse], sparseInRange r = true)
    ∧ (∀ e ∈ get_midi_events [demoSparse],
        1 ≤ e.measure ∧ (1 ≤ e.beat ∧ e.beat ≤ 8)
          ∧ (1 ≤ e.beat_div4 ∧ e.beat_div4 ≤ 8) ∧ (1 ≤ e.beat_div16 ∧ e.beat_div16 ≤ 8)) :=
  ⟨by decide, get_midi_events_in_range [demoSparse] (by decide)⟩

/-- Counterexample for C8: the record {beat: 50} violates its declared range
(`sparseInRange` is false), yet `get_midi_events` neither fails it nor skips
it: the record is resolved like any other (its out-of-range beat adopted
into the running state) and appears in the output, so the claim that an
out-of-range record "fails validation and is skipped" is false on the code. -/
theorem get_midi_events_out_of_range_not_skipped :
    sparseInRange ⟨none, some 50, none, none, .sustain, 0⟩ = false
    ∧ get_midi_events
          [⟨none, some 50, none, none, .sustain, 0⟩, ⟨none, none, some 2, none, .sustain, 1⟩]
        = [⟨1, 50, 1, 1, .sustain, 0⟩, ⟨1, 50, 2, 1, .sustain, 1⟩]
    ∧ (get_midi_events
          [⟨none, some 50, none, none, .sustain, 0⟩,
            ⟨none, none, some 2, none, .sustain, 1⟩]).length = 2 := by
  decide

/-- Claim C8 as amended: `get_midi_events` applies no range validation and
skips nothing: every input record, in range or not, yields exactly one
resolved event, and an out-of-range record does not abort processing of the
remaining records (which continue to be resolved). -/
theorem get_midi_events_length (dsl : List SparseMidiEvent) :
    (get_midi_events dsl).length = dsl.length :=
  getMidiEventsAux_length dsl ⟨1, 1, 1, 1⟩

theorem pcIndex_nonneg (pc : PitchClass) : 0 ≤ pcIndex pc := by
  cases pc <;> decide

theorem pcIndex_lt (pc : PitchClass) : pcIndex pc < 12 := by
  cases pc <;> decide

theorem pcOfNat_eq (pc : PitchClass) (d : Nat) (h : d % 12 = (pcIndex pc).toNat) :
    pcOfNat d = pc := by
  cases pc <;> simp [pcIndex] at h <;> simp [pcOfNat, h]

theorem decodeNote_noteNumber (pc : PitchClass) (octave : Int)
    (h0 : 0 ≤ noteNumber pc octave) :
    decodeNote (noteNumber pc octave).toNat = (pc, octave) := by
  have hlo := pcIndex_nonneg pc
  have hhi := pcIndex_lt pc
  have hd : ((noteNumber pc octave).toNat : Int) = noteNumber pc octave :=
    Int.toNat_of_nonneg h0
  have hi : (((pcIndex pc).toNat : Int)) = pcIndex pc := Int.toNat_of_nonneg hlo
  have hn : noteNumber pc octave = 12 * (octave + 1) + pcIndex pc := rfl
  refine Prod.ext ?_ ?_
  · refine pcOfNat_eq pc _ ?_
    omega
  · simp only [decodeNote]
    omega

/-- Claim C7: for every representable note name (note number in [0,127]),
the note-on payload is the 3-byte message with status byte 0x90 | channel,
a data1 from which `decodeNote` recovers the original pitch class and
octave under the A4 = 69 semitone arithmetic, and data2 the scaled value
round(value * 127 / 100) clamped to [0,127]; value 100 scales to 127 and
value 0 scales to 0. -/
theorem payload_note_roundtrip (pc : PitchClass) (octave : Int) (channel : Nat)
    (m b q x v : Int)
    (h : 0 ≤ noteNumber pc octave ∧ noteNumber pc octave ≤ 127) :
    payload channel ⟨m, b, q, x, .note pc octave, v⟩
        = some (0x90 ||| channel, (noteNumber pc octave).toNat, (scaleValue v).toNat)
    ∧ decodeNote (noteNumber pc octave).toNat = (pc, octave)
    ∧ scaleValue 100 = 127 ∧ scaleValue 0 = 0 := by
  refine ⟨?_, decodeNote_noteNumber pc octave h.1, by norm_num [scaleValue], by norm_num [scaleValue]⟩
  simp [payload, h]

/-- Witness for C7: the note A4 has note number 69 in [0,127]; its note-on
payload on channel 0 at value 100 is (0x90, 69, 127) and decodes back to
(a, 4). -/
theorem payload_note_roundtrip_witness :
    (0 ≤ noteNumber PitchClass.a 4 ∧ noteNumber PitchClass.a 4 ≤ 127)
    ∧ (payload 0 ⟨1, 1, 1, 1, .note PitchClass.a 4, 100⟩
          = some (0x90 ||| 0, (noteNumber PitchClass.a 4).toNat, (scaleValue 100).toNat)
        ∧ decodeNote (noteNumber PitchClass.a 4).toNat = (PitchClass.a, 4)
        ∧ scaleValue 100 = 127 ∧ scaleValue 0 = 0) :=
  ⟨by decide, payload_note_roundtrip PitchClass.a 4 0 1 1 1 1 100 (by decide)⟩

/-- Claim C6: `timestamp` maps every resolved position and tempo to exactly
the offset (measure-1)*numerator*60/bpm + (beat-1)*60/bpm
+ (quarter_sub-1)*(60/bpm)/4 + (sixteenth_sub-1)*(60/bpm)/16 seconds (the
signature denominator plays no role), and in particular at bpm 120 in 4/4
the position (1,1,1,1) maps to 0 and (2,1,1,1) maps to 2 seconds. -/
theorem timestamp_spec (e : MidiEvent) (bpm : Int) (ts : Int × Int) :
    timestamp e bpm ts
        = ((e.measure : Rat) - 1) * ((ts.1 : Rat) * (60 / (bpm : Rat)))
          + ((e.beat : Rat) - 1) * (60 / (bpm : Rat))
          + ((e.beat_div4 : Rat) - 1) * ((60 / (bpm : Rat)) / 4)
          + ((e.beat_div16 : Rat) - 1) * ((60 / (bpm : Rat)) / 16)
    ∧ timestamp ⟨1, 1, 1, 1, .sustain, 0⟩ 120 (4, 4) = 0
    ∧ timestamp ⟨2, 1, 1, 1, .sustain, 0⟩ 120 (4, 4) = 2 :=
  ⟨rfl, by norm_num [timestamp], by norm_num [timestamp]⟩

theorem playStep_idx_ge {α : Type} (off : α → Rat) (events : List α) (elapsed : Rat)
    (s : DispState α) (h : ¬ s.idx < events.length) : playStep off events elapsed s = s := by
  simp [playStep, h]

theorem playRun_join_take {α : Type} (off : α → Rat) (events : List α) (clock : Nat → Rat) :
    ∀ n, (playRun off events clock n).flushed.flatten ++ (playRun off events clock n).batch
      = events.take (playRun off events clock n).idx := by
  intro n
  induction n with
  | zero => simp [playRun]
  | succ n ih =>
    simp only [playRun, playStep]
    split
    · rename_i h
      split
      · show (playRun off events clock n).flushed.flatten
            ++ ((playRun off events clock n).batch ++ [events[(playRun off events clock n).idx]])
          = events.take ((playRun off events clock n).idx + 1)
        rw [List.take_succ, List.getElem?_eq_getElem h, ← List.append_assoc, ih]
        simp
      · split
        · exact ih
        · show ((playRun off events clock n).flushed
                ++ [(playRun off events clock n).batch]).flatten ++ []
            = events.take (playRun off events clock n).idx
          rw [List.append_nil, List.flatten_append]
          simpa using ih
    · exact ih

theorem playRun_no_empty_flush {α : Type} (off : α → Rat) (events : List α) (clock : Nat → Rat) :
    ∀ n, [] ∉ (playRun off events clock n).flushed := by
  intro n
  induction n with
  | zero => simp [playRun]
  | succ n ih =>
    simp only [playRun, playStep]
    split
    · split
      · exact ih
      · split
        · exact ih
        · rename_i hne
          intro hmem
          rcases List.mem_append.mp hmem with hm | hm
          · exact ih hm
          · exact hne (by rw [(List.mem_singleton.mp hm).symm]; rfl)
    · exact ih

theorem playRun_batch_le {α : Type} (off : α → Rat) (events : List α) (clock : Nat → Rat)
    (hm : ∀ i j : Nat, i ≤ j → clock i ≤ clock j) :
    ∀ n, ∀ e ∈ (playRun off events clock n).batch, off e ≤ clock n := by
  intro n
  induction n with
  | zero => simp [playRun]
  | succ n ih =>
    intro e
    have hcc : clock n ≤ clock (n + 1) := hm n (n + 1) (Nat.le_succ n)
    simp only [playRun, playStep]
    split
    · rename_i h
      split
      · rename_i hle
        intro he
        rcases List.mem_append.mp he with hmem | hmem
        · exact le_trans (ih e hmem) hcc
        · rw [List.mem_singleton.mp hmem]
          exact le_trans hle hcc
      · split
        · intro he
          exact le_trans (ih e he) hcc
        · intro he
          exact absurd he (List.not_mem_nil e)
    · intro he
      exact le_trans (ih e he) hcc

theorem playRun_flush_at {α : Type} (off : α → Rat) (events : List α) (clock : Nat → Rat)
    (n : Nat) (bt : List α)
    (hfl : (playRun off events clock (n + 1)).flushed
      = (playRun off events clock n).flushed ++ [bt]) :
    bt = (playRun off events clock n).batch := by
  revert hfl
  simp only [playRun, playStep]
  split
  · split
    · intro hfl
      exfalso
      have hl := congrArg List.length hfl
      simp only [List.length_append, List.length_cons, List.length_nil] at hl
      omega
    · split
      · intro hfl
        exfalso
        have hl := congrArg List.length hfl
        simp only [List.length_append, List.length_cons, List.length_nil] at hl
        omega
      · intro hfl
        have h2 := List.append_cancel_left hfl
        simpa using h2.symm
  · intro hfl
    exfalso
    have hl := congrArg List.length hfl
    simp only [List.length_append, List.length_cons, List.length_nil] at hl
    omega

theorem playRun_idx_le_succ {α : Type} (off : α → Rat) (events : List α) (clock : Nat → Rat)
    (n : Nat) :
    (playRun off events clock n).idx ≤ (playRun off events clock (n + 1)).idx := by
  simp only [playRun, playStep]
  split
  · split
    · exact Nat.le_succ _
    · split
      · exact Nat.le_refl _
      · exact Nat.le_refl _
  · exact Nat.le_refl _

theorem playRun_offsets_eq {α β : Type} (off₁ : α → Rat) (off₂ : β → Rat)
    (ev₁ : List α) (ev₂ : List β) (clock : Nat → Rat)
    (hoff : ev₁.map off₁ = ev₂.map off₂) :
    ∀ n, (playRun off₁ ev₁ clock n).idx = (playRun off₂ ev₂ clock n).idx
      ∧ (playRun off₁ ev₁ clock n).batch.length = (playRun off₂ ev₂ clock n).batch.length
      ∧ (playRun off₁ ev₁ clock n).flushed.map List.length
          = (playRun off₂ ev₂ clock n).flushed.map List.length := by
  have hlen : ev₁.length = ev₂.length := by
    have h := congrArg List.length hoff
    simpa using h
  intro n
  induction n with
  | zero => exact ⟨rfl, rfl, rfl⟩
  | succ n ih =>
    obtain ⟨hidx, hbatch, hflushed⟩ := ih
    have hstep₁ : playRun off₁ ev₁ clock (n + 1)
        = playStep off₁ ev₁ (clock n) (playRun off₁ ev₁ clock n) := rfl
    have hstep₂ : playRun off₂ ev₂ clock (n + 1)
        = playStep off₂ ev₂ (clock n) (playRun off₂ ev₂ clock n) := rfl
    rw [hstep₁, hstep₂]
    by_cases h1 : (playRun off₁ ev₁ clock n).idx < ev₁.length
    · have h2 : (playRun off₂ ev₂ clock n).idx < ev₂.length := by omega
      have he₁ : ev₁[(playRun off₁ ev₁ clock n).idx]?
          = some (ev₁[(playRun off₁ ev₁ clock n).idx]) := List.getElem?_eq_getElem h1
      have he₂ : ev₂[(playRun off₂ ev₂ clock n).idx]?
          = some (ev₂[(playRun off₂ ev₂ clock n).idx]) := List.getElem?_eq_getElem h2
      have heq : off₁ (ev₁[(playRun off₁ ev₁ clock n).idx])
          = off₂ (ev₂[(playRun off₂ ev₂ clock n).idx]) := by
        have h3 : (ev₁.map off₁)[(playRun off₁ ev₁ clock n).idx]?
            = (ev₂.map off₂)[(playRun off₂ ev₂ clock n).idx]? := by
          rw [hoff, hidx]
        rw [List.getElem?_map, List.getElem?_map, he₁, he₂] at h3
        simpa using h3
      by_cases hle : off₁ (ev₁[(playRun off₁ ev₁ clock n).idx]) ≤ clock n
      · have hle₂ : off₂ (ev₂[(playRun off₂ ev₂ clock n).idx]) ≤ clock n := heq ▸ hle
        simp only [playStep, dif_pos h1, dif_pos h2, if_pos hle, if_pos hle₂]
        refine ⟨by simpa using hidx, by simp [hbatch], hflushed⟩
      · have hle₂ : ¬ off₂ (ev₂[(playRun off₂ ev₂ clock n).idx]) ≤ clock n := heq ▸ hle
        simp only [playStep, dif_pos h1, dif_pos h2, if_neg hle, if_neg hle₂]
        by_cases hb : (playRun off₁ ev₁ clock n).batch.isEmpty = true
        · have hb₂ : (playRun off₂ ev₂ clock n).batch.isEmpty = true := by
            rw [List.isEmpty_iff_length_eq_zero] at hb ⊢
            omega
          rw [if_pos hb, if_pos hb₂]
          exact ⟨hidx, hbatch, hflushed⟩
        · have hb₂ : ¬ (playRun off₂ ev₂ clock n).batch.isEmpty = true := by
            rw [List.isEmpty_iff_length_eq_zero] at hb ⊢
            omega
          rw [if_neg hb, if_neg hb₂]
          refine ⟨hidx, rfl, ?_⟩
          simp [hflushed, hbatch]
    · have h2 : ¬ (playRun off₂ ev₂ clock n).idx < ev₂.length := by omega
      rw [playStep_idx_ge off₁ ev₁ (clock n) _ h1, playStep_idx_ge off₂ ev₂ (clock n) _ h2]
      exact ⟨hidx, hbatch, hflushed⟩

/-- Claim C1 (code bug): for the event sequence with offsets 0, 0, 1/20 and
1/5 of a second and an elapsed-time trace sampling 0, 3/50 and 1/4, the loop
of `play_midi` delivers the first two events as one batch and the 1/20 event
as a second batch, then consumes the last event into the in-flight batch and
exits as soon as the cursor reaches the end of the sequence: the trailing
batch is never flushed, no matter how much further the run is extended, so
only 3 of the 4 events are ever delivered to the sink, contradicting the
final-flush behaviour the claim describes. -/
theorem play_midi_drops_trailing_batch :
    play_midi 300 (4, 4) demoEvents demoClock 7
      = ⟨4, [⟨1, 2, 1, 1, .sustain, 3⟩],
          [[⟨1, 1, 1, 1, .sustain, 0⟩, ⟨1, 1, 1, 1, .sustain, 1⟩],
            [⟨1, 1, 2, 1, .sustain, 2⟩]]⟩
    ∧ (∀ k, play_midi 300 (4, 4) demoEvents demoClock (7 + k)
        = play_midi 300 (4, 4) demoEvents demoClock 7)
    ∧ (play_midi 300 (4, 4) demoEvents demoClock 7).flushed.flatten.length = 3
    ∧ demoEvents.length = 4 := by
  have h7 : play_midi 300 (4, 4) demoEvents demoClock 7
      = ⟨4, [⟨1, 2, 1, 1, .sustain, 3⟩],
          [[⟨1, 1, 1, 1, .sustain, 0⟩, ⟨1, 1, 1, 1, .sustain, 1⟩],
            [⟨1, 1, 2, 1, .sustain, 2⟩]]⟩ := by
    norm_num [play_midi, playRun, playStep, demoEvents, demoClock, timestamp]
  refine ⟨h7, ?_, by rw [h7]; rfl, rfl⟩
  intro k
  induction k with
  | zero => rfl
  | succ k ih =>
    have hstep : play_midi 300 (4, 4) demoEvents demoClock (7 + (k + 1))
        = playStep (fun e => timestamp e 300 (4, 4)) demoEvents (demoClock (7 + k))
            (play_midi 300 (4, 4) demoEvents demoClock (7 + k)) := rfl
    rw [hstep, ih, h7]
    exact playStep_idx_ge _ _ _ _ (by decide)

/-- Claim C2: for every event sequence and every monotone elapsed-time trace,
the loop of `play_midi` never delivers an empty batch to the sink, the
events delivered so far (flushed batches in order, then the in-flight batch)
are exactly the first `idx` events of the sequence in their original order,
and every event of a batch flushed at iteration n has its scheduled offset
at most the elapsed time read at that iteration: no event is delivered
before its offset has elapsed. -/
theorem play_midi_flush_discipline (bpm : Int) (ts : Int × Int) (events : List MidiEvent)
    (clock : Nat → Rat) (hm : ∀ i j : Nat, i ≤ j → clock i ≤ clock j) :
    ∀ n, ([] ∉ (play_midi bpm ts events clock n).flushed)
      ∧ ((play_midi bpm ts events clock n).flushed.flatten
            ++ (play_midi bpm ts events clock n).batch
          = events.take (play_midi bpm ts events clock n).idx)
      ∧ (∀ bt, (play_midi bpm ts events clock (n + 1)).flushed
            = (play_midi bpm ts events clock n).flushed ++ [bt] →
          ∀ e ∈ bt, timestamp e bpm ts ≤ clock n) := by
  intro n
  refine ⟨playRun_no_empty_flush _ events clock n, playRun_join_take _ events clock n, ?_⟩
  intro bt hfl e he
  have hb := playRun_flush_at (fun e => timestamp e bpm ts) events clock n bt hfl
  exact playRun_batch_le _ events clock hm n e (hb ▸ he)

/-- Witness for C2: the flush discipline at bpm 120 in 4/4 over `demoEvents`
against the constant-zero (monotone) elapsed-time trace. -/
theorem play_midi_flush_discipline_witness :
    (∀ i j : Nat, i ≤ j → zeroClock i ≤ zeroClock j)
    ∧ (∀ n, ([] ∉ (play_midi 120 (4, 4) demoEvents zeroClock n).flushed)
        ∧ ((play_midi 120 (4, 4) demoEvents zeroClock n).flushed.flatten
              ++ (play_midi 120 (4, 4) demoEvents zeroClock n).batch
            = demoEvents.take (play_midi 120 (4, 4) demoEvents zeroClock n).idx)
        ∧ (∀ bt, (play_midi 120 (4, 4) demoEvents zeroClock (n + 1)).flushed
              = (play_midi 120 (4, 4) demoEvents zeroClock n).flushed ++ [bt] →
            ∀ e ∈ bt, timestamp e 120 (4, 4) ≤ zeroClock n)) :=
  ⟨fun _ _ _ => le_refl (0 : Rat),
    play_midi_flush_discipline 120 (4, 4) demoEvents zeroClock (fun _ _ _ => le_refl (0 : Rat))⟩

/-- Claim C9: the batching of `play_midi` is a function only of elapsed time
versus scheduled offsets: two runs against the same elapsed-time trace whose
event sequences have identical offset sequences produce identical cursor
positions, identical in-flight batch sizes and identical flushed batch
boundaries at every iteration; in particular two runs over the same events,
tempo and trace are literally the same value, since the embedded loop is a
pure function of its inputs. -/
theorem play_midi_offset_determinism (bpm₁ bpm₂ : Int) (ts₁ ts₂ : Int × Int)
    (ev₁ ev₂ : List MidiEvent) (clock : Nat → Rat)
    (h : ev₁.map (fun e => timestamp e bpm₁ ts₁) = ev₂.map (fun e => timestamp e bpm₂ ts₂)) :
    ∀ n, (play_midi bpm₁ ts₁ ev₁ clock n).idx = (play_midi bpm₂ ts₂ ev₂ clock n).idx
      ∧ (play_midi bpm₁ ts₁ ev₁ clock n).batch.length
          = (play_midi bpm₂ ts₂ ev₂ clock n).batch.length
      ∧ (play_midi bpm₁ ts₁ ev₁ clock n).flushed.map List.length
          = (play_midi bpm₂ ts₂ ev₂ clock n).flushed.map List.length :=
  playRun_offsets_eq _ _ ev₁ ev₂ clock h

/-- Witness for C9: two runs over `demoEvents` at bpm 300 against the
constant-zero trace have identical batch boundaries. -/
theorem play_midi_offset_determinism_witness :
    (demoEvents.map (fun e => timestamp e 300 (4, 4))
        = demoEvents.map (fun e => timestamp e 300 (4, 4)))
    ∧ (∀ n, (play_midi 300 (4, 4) demoEvents zeroClock n).idx
          = (play_midi 300 (4, 4) demoEvents zeroClock n).idx
        ∧ (play_midi 300 (4, 4) demoEvents zeroClock n).batch.length
            = (play_midi 300 (4, 4) demoEvents zeroClock n).batch.length
        ∧ (play_midi 300 (4, 4) demoEvents zeroClock n).flushed.map List.length
            = (play_midi 300 (4, 4) demoEvents zeroClock n).flushed.map List.length) :=
  ⟨rfl, play_midi_offset_determinism 300 300 (4, 4) (4, 4) demoEvents demoEvents zeroClock rfl⟩

/-- Claim C10: the cursor of `play_midi` only ever advances, and the events
accumulated across all flushed batches plus the in-flight batch are exactly
the first `idx` events of the input sequence, each at its unique position:
every event is appended to at most one batch and is never delivered to the
sink more than once. -/
theorem play_midi_at_most_once (bpm : Int) (ts : Int × Int) (events : List MidiEvent)
    (clock : Nat → Rat) (n : Nat) :
    (play_midi bpm ts events clock n).idx ≤ (play_midi bpm ts events clock (n + 1)).idx
    ∧ (play_midi bpm ts events clock n).flushed.flatten
          ++ (play_midi bpm ts events clock n).batch
        = events.take (play_midi bpm ts events clock n).idx :=
  ⟨playRun_idx_le_succ _ events clock n, playRun_join_take _ events clock n⟩
